import Mathlib

/-!
Verification of the `config_tool_backend` HTTP API server (`src/server.ts`).

The server manages a directory of JSON publisher-config files plus an index
file `publishers.json`.  This file gives a shallow embedding of the parts of
`server.ts` that the specification's claims are about:

* a model of JavaScript/JSON values (`JsVal`), with numbers as integers;
* `validatePublisherConfig` (server.ts lines 136-181);
* `validateFilename` (server.ts lines 122-133);
* `readPublishersList` (server.ts lines 247-279);
* the GET/PUT/POST/DELETE `/api/publisher/:filename` route handlers
  (server.ts lines 301-527), modelled as pure state transformers over a
  filesystem map, returning the HTTP status, the new filesystem, and the
  trace of filesystem calls performed on the data directory;
* an interleaving small-step semantics of `withFileLock`
  (server.ts lines 213-236) for the concurrency claim.

Modelling conventions, each noted again at the definition it concerns:
* file contents are kept at parsed-value granularity (`FileData.json v`
  stores the value a `JSON.parse` of the file's text yields; `FileData.raw`
  stands for text that does not parse as JSON);
* the audit logger `logAction` is modelled as a no-op: it only appends to
  `app.log` (outside the data directory), all its failures are swallowed,
  and in every handler the 400 path returns before the log call;
* `withFileLock` is inlined sequentially in the route handlers (the view of
  one request with no interleaved writer); its concurrent behaviour is
  modelled separately by `LockState`/`lockStep`.
-/

namespace ConfigTool

/-- JavaScript values as far as the server manipulates them: JSON values
plus `undefined`; numbers are modelled as integers (the server never does
arithmetic on config data). -/
inductive JsVal where
  | undefined
  | null
  | bool (b : Bool)
  | num (n : Int)
  | str (s : String)
  | arr (xs : List JsVal)
  | obj (fields : List (String × JsVal))

/-- JavaScript truthiness of a value (`!x` in the source is `!truthy x`). -/
def truthy : JsVal → Bool
  | .undefined => false
  | .null => false
  | .bool b => b
  | .num n => n != 0
  | .str s => s != ""
  | .arr _ => true
  | .obj _ => true

/-- `typeof x === 'object'` — true for `null`, arrays and plain objects. -/
def typeofObject : JsVal → Bool
  | .null => true
  | .arr _ => true
  | .obj _ => true
  | _ => false

/-- `typeof x === 'string'`. -/
def isString : JsVal → Bool
  | .str _ => true
  | _ => false

/-- `typeof x === 'boolean'`. -/
def isBool : JsVal → Bool
  | .bool _ => true
  | _ => false

/-- `Array.isArray x`. -/
def isArr : JsVal → Bool
  | .arr _ => true
  | _ => false

/-- The string carried by a string value (only ever used under an
`isString` guard, mirroring JavaScript short-circuit evaluation). -/
def strVal : JsVal → String
  | .str s => s
  | _ => ""

/-- Property access `v.k`.  Absent properties and property access on
non-objects yield `undefined`.  (In JavaScript, property access on `null`
or `undefined` throws; every claim verified below only accesses properties
under hypotheses that rule that out, as noted at each use.) -/
def getField : JsVal → String → JsVal
  | .obj fields, k =>
    match fields.find? (fun f => f.1 == k) with
    | some f => f.2
    | none => .undefined
  | _, _ => .undefined

/-- JavaScript strict equality `===` restricted to the comparisons the
server performs.  Arrays and objects compare by reference in JavaScript;
the server only ever compares values originating from distinct
allocations (a parsed file vs. a parsed request body), so those
comparisons are `false`. -/
def jsStrictEq : JsVal → JsVal → Bool
  | .undefined, .undefined => true
  | .null, .null => true
  | .bool a, .bool b => a == b
  | .num a, .num b => a == b
  | .str a, .str b => a == b
  | _, _ => false

/-- `a || b` on values (used for `req.body.aliasName || ""`). -/
def jsOr (a b : JsVal) : JsVal :=
  if truthy a then a else b

/-- `String.prototype.trim`: strip leading and trailing whitespace.
Implemented structurally on the character list so that it evaluates by
`rfl`/`decide` (Lean's own `String.trim` is defined by well-founded
recursion and does not reduce in the kernel).  JavaScript's whitespace
class is slightly larger than `Char.isWhitespace` (it also has NBSP and
other Unicode spaces); the claims below only depend on ASCII whitespace,
where the two agree. -/
def jsTrim (s : String) : String :=
  ⟨((s.data.dropWhile Char.isWhitespace).reverse.dropWhile Char.isWhitespace).reverse⟩

/-- Result of `validatePublisherConfig`: `{ valid: boolean; error?: string }`. -/
structure ValidationResult where
  valid : Bool
  error : Option String

/-- The per-field test the source applies to `pageType` / `selector` /
`position`: `!page.f || typeof page.f !== 'string'` (negated). -/
def okStr (v : JsVal) : Bool :=
  truthy v && isString v

/-- The `for` loop over `data.pages` in `validatePublisherConfig`
(server.ts lines 164-178), `i` being the loop index (used only in the
error message). -/
def validatePages (i : Nat) : List JsVal → ValidationResult
  | [] => ⟨true, none⟩
  | page :: rest =>
    if !truthy page || !typeofObject page then
      ⟨false, some ("pages[" ++ toString i ++ "] must be an object")⟩
    else if !okStr (getField page "pageType") then
      ⟨false, some ("pages[" ++ toString i ++ "].pageType is required and must be a string")⟩
    else if !okStr (getField page "selector") then
      ⟨false, some ("pages[" ++ toString i ++ "].selector is required and must be a string")⟩
    else if !okStr (getField page "position") then
      ⟨false, some ("pages[" ++ toString i ++ "].position is required and must be a string")⟩
    else validatePages (i + 1) rest

/-- `validatePublisherConfig` (server.ts lines 136-181), translated check
by check in source order. -/
def validatePublisherConfig (data : JsVal) : ValidationResult :=
  if !truthy data || !typeofObject data then
    ⟨false, some "Invalid data format"⟩
  else
    let pid := getField data "publisherId"
    if !truthy pid || !isString pid || jsTrim (strVal pid) == "" then
      ⟨false, some "publisherId is required and must be a non-empty string"⟩
    else if (strVal pid).length > 100 then
      ⟨false, some "publisherId must be 100 characters or less"⟩
    else
      let al := getField data "aliasName"
      if !truthy al || !isString al || jsTrim (strVal al) == "" then
        ⟨false, some "aliasName is required and must be a non-empty string"⟩
      else if (strVal al).length > 200 then
        ⟨false, some "aliasName must be 200 characters or less"⟩
      else if !isBool (getField data "isActive") then
        ⟨false, some "isActive must be a boolean"⟩
      else
        match getField data "pages" with
        | .arr pages => validatePages 0 pages
        | _ => ⟨false, some "pages must be an array"⟩

/-! ### Specification-side predicates for claim C6.

`specConfigValid` is written from the claim's words ("an object with
`publisherId` a non-empty string of at most 100 characters, ...").
`specConfigValidAmended` replaces "non-empty" by "non-empty after
trimming whitespace" for `publisherId` and `aliasName`, which is what the
source actually checks (`data.publisherId.trim() === ''`). -/

/-- Claim wording: a non-empty string of at most `n` characters. -/
def nonEmptyStrAtMost (v : JsVal) (n : Nat) : Bool :=
  match v with
  | .str s => s != "" && s.length ≤ n
  | _ => false

/-- Amended wording: a string that is non-empty after trimming whitespace,
of at most `n` characters. -/
def trimNonEmptyStrAtMost (v : JsVal) (n : Nat) : Bool :=
  match v with
  | .str s => jsTrim s != "" && s.length ≤ n
  | _ => false

/-- Claim wording for a `pages` element: a non-empty string field. -/
def nonEmptyStr (v : JsVal) : Bool :=
  match v with
  | .str s => s != ""
  | _ => false

/-- Claim wording for a `pages` element: an object with `pageType`,
`selector` and `position` present as non-empty strings. -/
def pageObjOkSpec (p : JsVal) : Bool :=
  match p with
  | .obj _ =>
    nonEmptyStr (getField p "pageType") && nonEmptyStr (getField p "selector")
      && nonEmptyStr (getField p "position")
  | _ => false

/-- The claim's acceptance condition for C6, as stated. -/
def specConfigValid (d : JsVal) : Bool :=
  (match d with | .obj _ => true | _ => false)
    && nonEmptyStrAtMost (getField d "publisherId") 100
    && nonEmptyStrAtMost (getField d "aliasName") 200
    && isBool (getField d "isActive")
    && (match getField d "pages" with | .arr ps => ps.all pageObjOkSpec | _ => false)

/-- The amended acceptance condition for C6: `publisherId` and `aliasName`
must be non-empty after trimming (the source's `trim() === ''` check). -/
def specConfigValidAmended (d : JsVal) : Bool :=
  (match d with | .obj _ => true | _ => false)
    && trimNonEmptyStrAtMost (getField d "publisherId") 100
    && trimNonEmptyStrAtMost (getField d "aliasName") 200
    && isBool (getField d "isActive")
    && (match getField d "pages" with | .arr ps => ps.all pageObjOkSpec | _ => false)

/-! ### Filename validation (server.ts lines 122-133). -/

/-- The character class `[a-zA-Z0-9_-]` of the filename regex. -/
def isFilenameChar (c : Char) : Bool :=
  c.isAlpha || c.isDigit || c == '_' || c == '-'

/-- The characters of the literal suffix `.json` of the filename regex. -/
def suffixJson : List Char := ['.', 'j', 's', 'o', 'n']

/-- After the first stem character: either the rest of the string is
exactly `.json`, or one more stem character is consumed.  Since `.` is not
a stem character, this matcher is equivalent to the anchored regex
`^[a-zA-Z0-9_-]+\.json$`. -/
def filenameTail : List Char → Bool
  | [] => false
  | c :: rest => (c :: rest == suffixJson) || (isFilenameChar c && filenameTail rest)

/-- `/^[a-zA-Z0-9_-]+\.json$/.test(filename)`. -/
def matchesFilenameRegex (f : String) : Bool :=
  match f.data with
  | [] => false
  | c :: rest => isFilenameChar c && filenameTail rest

/-- The resolved data directory `path.resolve(__dirname, "./data")`.  Its
concrete value depends on the deployment; any absolute path works for the
claims below. -/
def dataDir : String := "/srv/config-backend/data"

/-- `path.resolve(__dirname, "./data", filename)` for a filename that has
already passed the regex: such a filename has no path separators and no
`.` or `..` segments, so resolution is plain concatenation.
`validateFilename` only evaluates this after the regex check succeeds,
which keeps the simplification sound. -/
def resolvedPath (f : String) : String := dataDir ++ "/" ++ f

/-- `String.prototype.startsWith`, structurally on the character lists so
that it evaluates in the kernel (Lean's `String.startsWith` is defined by
well-founded recursion). -/
def strStartsWith (s p : String) : Bool := p.data.isPrefixOf s.data

/-- `validateFilename` (server.ts lines 122-133): regex check, then the
resolved-path containment check. -/
def validateFilename (f : String) : Bool :=
  if !matchesFilenameRegex f then false
  else strStartsWith (resolvedPath f) dataDir

/-! ### Filesystem model. -/

/-- The content of one file in the data directory, at parsed-value
granularity: `json v` is a file whose text `JSON.parse`s to `v` (writing
a value `v` with `JSON.stringify` produces such a file); `raw` is a file
whose text does not parse as JSON. -/
inductive FileData where
  | json (v : JsVal)
  | raw (s : String)

/-- The data directory: an association list from filename to content
(first binding wins). -/
abbrev Fs := List (String × FileData)

/-- One filesystem call performed by a handler on the data directory. -/
inductive FsOp where
  | read (name : String)
  | write (name : String)
  | unlink (name : String)
  | access (name : String)
deriving DecidableEq

/-- Read a file (`fs.readFile`): `none` is the ENOENT case. -/
def Fs.lookup (fs : Fs) (n : String) : Option FileData :=
  match fs.find? (fun e => e.1 == n) with
  | some e => some e.2
  | none => none

/-- Remove a file (`fs.unlink`). -/
def Fs.remove (fs : Fs) (n : String) : Fs :=
  fs.filter (fun e => e.1 != n)

/-- Write (create or overwrite) a file (`fs.writeFile`). -/
def Fs.write (fs : Fs) (n : String) (d : FileData) : Fs :=
  (n, d) :: Fs.remove fs n

/-- The errors the handlers distinguish.  The source throws `Error`s and
string-matches their messages at the route boundary; each constructor
stands for one message family: `enoent` for `"ENOENT"` (missing file),
`corruptedIndex` for `"Failed to read publishers list - file may be
corrupted"`, `invalidStructure` for `"Invalid publishers.json structure"`,
`alreadyExists` for `"Publisher config already exists"`. -/
inductive Err where
  | enoent
  | corruptedIndex
  | invalidStructure
  | alreadyExists
deriving DecidableEq

/-- The index file's name. -/
def indexName : String := "publishers.json"

/-- The structural check of `readPublishersList`:
`publishersList && Array.isArray(publishersList.publishers)`. -/
def hasPublishersArray (v : JsVal) : Bool :=
  truthy v && isArr (getField v "publishers")

/-- `readPublishersList` (server.ts lines 247-279): read the index file,
parse it, validate that `publishers` is an array.  Returns the parsed
value or the error, together with the filesystem calls performed.  It
performs no writes (no automatic repair). -/
def readPublishersList (fs : Fs) : Except Err JsVal × List FsOp :=
  match Fs.lookup fs indexName with
  | none => (.error .enoent, [.read indexName])
  | some (.raw _) => (.error .corruptedIndex, [.read indexName])
  | some (.json v) =>
    if hasPublishersArray v then (.ok v, [.read indexName])
    else (.error .invalidStructure, [.read indexName])

/-- `publishersList.publishers` (defined when `hasPublishersArray`). -/
def publishersOf (v : JsVal) : List JsVal :=
  match getField v "publishers" with
  | .arr xs => xs
  | _ => []

/-- Replace the `publishers` array of the index value (the in-place array
mutations of the source). -/
def setPublishers (v : JsVal) (xs : List JsVal) : JsVal :=
  match v with
  | .obj fields => .obj (fields.map (fun f => if f.1 == "publishers" then ("publishers", .arr xs) else f))
  | other => other

/-- `p.k = newVal` on an index entry (property assignment; for entries of
a well-formed index the property already exists). -/
def setField (p : JsVal) (k : String) (newVal : JsVal) : JsVal :=
  match p with
  | .obj fields => .obj (fields.map (fun f => if f.1 == k then (k, newVal) else f))
  | other => other

/-- `p.alias` as a string (see `aliasLe`). -/
def aliasOf (p : JsVal) : String := strVal (getField p "alias")

/-- The sort callback `(a, b) => a.alias.localeCompare(b.alias)`.
`localeCompare` is an external locale-aware (ICU) comparison, so the
handlers are parametrised over it: `lcmp a b = .gt` stands for a positive
return value.  On a well-formed index every `alias` is a string
(`wfItem`); on a non-string `alias` JavaScript would throw a TypeError,
while this model compares the default `""` — the claims below carry
well-formedness hypotheses that rule that case out. -/
def aliasLe (lcmp : String → String → Ordering) (a b : JsVal) : Bool :=
  lcmp (aliasOf a) (aliasOf b) != Ordering.gt

/-- Stable insertion into a sorted list: `x` goes before the first element
it is `le`-below-or-tied-with. -/
def insertBy (le : JsVal → JsVal → Bool) (x : JsVal) : List JsVal → List JsVal
  | [] => [x]
  | y :: ys => if le x y then x :: y :: ys else y :: insertBy le x ys

/-- `Array.prototype.sort` with a consistent comparator: a stable sort
(required by ECMAScript); modelled as stable insertion sort, which agrees
with any stable sort for a total comparator. -/
def sortBy (le : JsVal → JsVal → Bool) : List JsVal → List JsVal
  | [] => []
  | x :: xs => insertBy le x (sortBy le xs)

/-- `p.file === filename`. -/
def fileEq (f : String) (p : JsVal) : Bool := jsStrictEq (getField p "file") (.str f)

/-- `p.id === req.body.publisherId`. -/
def idEq (body p : JsVal) : Bool := jsStrictEq (getField p "id") (getField body "publisherId")

/-- A well-formed index entry (data model of the spec, §3): an object
whose `id`, `alias` and `file` are strings. -/
def wfItem (p : JsVal) : Bool :=
  match p with
  | .obj _ => isString (getField p "id") && isString (getField p "alias") && isString (getField p "file")
  | _ => false

/-- The entry `{ id: req.body.publisherId, alias: req.body.aliasName,
file: filename }` pushed by the POST handler. -/
def newIndexItem (body : JsVal) (filename : String) : JsVal :=
  .obj [("id", getField body "publisherId"), ("alias", getField body "aliasName"), ("file", .str filename)]

/-! ### Route handlers (server.ts lines 301-527).

Each handler is the sequential semantics of one request: `withFileLock`
is inlined (the view with no interleaved writer; concurrency is modelled
separately for claim C1).  `logAction` is a no-op here (it only touches
`app.log`, outside the data directory, and swallows its own failures);
note that every 400 path returns before the source's `logAction` call, so
the empty trace on those paths is exact. -/

/-- GET `/api/publisher/:filename` (server.ts lines 301-333): status,
response body, filesystem calls. -/
def getHandler (fs : Fs) (f : String) : Nat × Option JsVal × List FsOp :=
  if !validateFilename f then (400, none, [])
  else
    match Fs.lookup fs f with
    | none => (404, none, [.read f])
    | some (.raw _) => (500, none, [.read f])
    | some (.json v) => (200, some v, [.read f])

/-- PUT `/api/publisher/:filename` (server.ts lines 336-392): write the
config file, read the index, update the alias of the entry whose `file`
matches (sorting only if the alias changed), persist the index.  Returns
status, final filesystem, filesystem calls. -/
def putHandler (lcmp : String → String → Ordering) (fs : Fs) (f : String) (body : JsVal) :
    Nat × Fs × List FsOp :=
  if !validateFilename f then (400, fs, [])
  else if !(validatePublisherConfig body).valid then (400, fs, [])
  else
    let fs1 := Fs.write fs f (.json body)
    match readPublishersList fs1 with
    | (.error _, rops) => (500, fs1, .write f :: rops)
    | (.ok v, rops) =>
      let pubs := publishersOf v
      match pubs.findIdx? (fileEq f) with
      | none =>
        (200, Fs.write fs1 indexName (.json v), .write f :: rops ++ [.write indexName])
      | some i =>
        let oldAlias := getField (pubs.getD i .undefined) "alias"
        let newAlias := jsOr (getField body "aliasName") (.str "")
        let pubs1 := pubs.set i (setField (pubs.getD i .undefined) "alias" newAlias)
        let pubs2 := if !jsStrictEq oldAlias newAlias then sortBy (aliasLe lcmp) pubs1 else pubs1
        (200, Fs.write fs1 indexName (.json (setPublishers v pubs2)),
          .write f :: rops ++ [.write indexName])

/-- The operation the POST handler runs under `withFileLock`
(server.ts lines 431-457): re-check existence, write the config file,
re-read the index, push the new entry, sort by alias, persist the index.
Returns the outcome, the filesystem after the operation (changed even on
a failure that happens after the config write), and the calls made. -/
def createLocked (lcmp : String → String → Ordering) (fs : Fs) (f : String) (body : JsVal) :
    Except Err Unit × Fs × List FsOp :=
  if (Fs.lookup fs f).isSome then (.error .alreadyExists, fs, [.access f])
  else
    let fs1 := Fs.write fs f (.json body)
    match readPublishersList fs1 with
    | (.error e, rops) => (.error e, fs1, .access f :: .write f :: rops)
    | (.ok v, rops) =>
      let pubs2 := sortBy (aliasLe lcmp) (publishersOf v ++ [newIndexItem body f])
      (.ok (), Fs.write fs1 indexName (.json (setPublishers v pubs2)),
        .access f :: .write f :: rops ++ [.write indexName])

/-- POST `/api/publisher/:filename` (server.ts lines 395-480): validate,
pre-check existence, pre-check duplicate `publisherId`, then run
`createLocked`; the route's catch maps an `already exists` message to
409 and everything else to 500. -/
def createHandler (lcmp : String → String → Ordering) (fs : Fs) (f : String) (body : JsVal) :
    Nat × Fs × List FsOp :=
  if !validateFilename f then (400, fs, [])
  else if !(validatePublisherConfig body).valid then (400, fs, [])
  else if (Fs.lookup fs f).isSome then (409, fs, [.access f])
  else
    match readPublishersList fs with
    | (.error _, rops) => (500, fs, .access f :: rops)
    | (.ok v, rops) =>
      if (publishersOf v).any (idEq body) then (409, fs, .access f :: rops)
      else
        match createLocked lcmp fs f body with
        | (.ok _, fs2, lops) => (201, fs2, .access f :: rops ++ lops)
        | (.error .alreadyExists, fs2, lops) => (409, fs2, .access f :: rops ++ lops)
        | (.error _, fs2, lops) => (500, fs2, .access f :: rops ++ lops)

/-- DELETE `/api/publisher/:filename` (server.ts lines 483-527): unlink
the config file (404 if absent), read the index, drop every entry whose
`file` equals the deleted name, persist the index.  An ENOENT thrown by
the index read is also mapped to 404 by the route's catch. -/
def deleteHandler (fs : Fs) (f : String) : Nat × Fs × List FsOp :=
  if !validateFilename f then (400, fs, [])
  else
    match Fs.lookup fs f with
    | none => (404, fs, [.unlink f])
    | some _ =>
      let fs1 := Fs.remove fs f
      match readPublishersList fs1 with
      | (.error .enoent, rops) => (404, fs1, .unlink f :: rops)
      | (.error _, rops) => (500, fs1, .unlink f :: rops)
      | (.ok v, rops) =>
        (200, Fs.write fs1 indexName (.json (setPublishers v ((publishersOf v).filter (fun p => !fileEq f p)))),
          .unlink f :: rops ++ [.write indexName])

/-! ### Interleaving semantics of `withFileLock` (server.ts lines 213-236)
for claim C1.

Each task is one call `withFileLock(filename, operation)` on one fixed
filename; its operation performs one atomic file write and then finishes.
JavaScript's event loop runs each synchronous segment atomically and can
only interleave at `await` points, so each transition below is one
synchronous segment of the source:

* `start i` — the caller runs `withFileLock` up to its first suspension:
  if `fileLocks` has an entry, it `await`s that promise (`waitingOn j`);
  otherwise it starts `operation()` (up to its first `await`) and
  registers its own promise (`started`, lock registered to `i`).
* `resume i` — the awaited promise has settled: the caller starts
  `operation()` and sets `fileLocks` to its own promise, overwriting
  whatever is registered (`fileLocks.set`).
* `write i` — the operation's file write completes.
* `finish i` — the operation ends: the `finally` block deletes the map
  entry unconditionally (`fileLocks.delete(filename)`), and the promise
  settles, waking all awaiters. -/

/-- The control state of one `withFileLock` caller. -/
inductive Phase where
  | notStarted
  | waitingOn (j : Nat)
  | started
  | wrote
  | done
deriving DecidableEq

/-- Global state: per-task phases, the `fileLocks` entry for the one
filename, the set of settled promises, and the file's content (the id of
the task whose body it holds). -/
structure LockState where
  tasks : List Phase
  lockReg : Option Nat
  settled : List Nat
  fileContent : Option Nat
deriving DecidableEq

/-- Scheduler actions (one synchronous segment each). -/
inductive LAct where
  | start (i : Nat)
  | resume (i : Nat)
  | write (i : Nat)
  | finish (i : Nat)

/-- One step; `none` when the action is not enabled, so that any trace
`lockRun` accepts is a genuine event-loop schedule. -/
def lockStep (s : LockState) : LAct → Option LockState
  | .start i =>
    match s.tasks[i]? with
    | some .notStarted =>
      match s.lockReg with
      | some j => some { s with tasks := s.tasks.set i (.waitingOn j) }
      | none => some { s with tasks := s.tasks.set i .started, lockReg := some i }
    | _ => none
  | .resume i =>
    match s.tasks[i]? with
    | some (.waitingOn j) =>
      if s.settled.contains j then
        some { s with tasks := s.tasks.set i .started, lockReg := some i }
      else none
    | _ => none
  | .write i =>
    match s.tasks[i]? with
    | some .started => some { s with tasks := s.tasks.set i .wrote, fileContent := some i }
    | _ => none
  | .finish i =>
    match s.tasks[i]? with
    | some .wrote =>
      some { s with tasks := s.tasks.set i .done, lockReg := none, settled := i :: s.settled }
    | _ => none

/-- Run a schedule from a state. -/
def lockRun (s : LockState) : List LAct → Option LockState
  | [] => some s
  | a :: rest =>
    match lockStep s a with
    | some s2 => lockRun s2 rest
    | none => none

/-- `n` callers of `withFileLock` on the same filename, none started. -/
def initLock (n : Nat) : LockState :=
  ⟨List.replicate n .notStarted, none, [], none⟩

/-- Task `i`'s operation has started and has not settled. -/
def inFlight (s : LockState) (i : Nat) : Bool :=
  match s.tasks[i]? with
  | some .started => true
  | some .wrote => true
  | _ => false

/-- The schedule refuting mutual exclusion for three concurrent callers:
task 0 starts and runs; tasks 1 and 2 arrive while 0 is registered and
both await 0's promise; 0 writes and finishes (deleting the lock entry
and settling); 1 resumes and starts its operation; 2 resumes and starts
its operation as well. -/
def raceTrace : List LAct :=
  [.start 0, .start 1, .start 2, .write 0, .finish 0, .resume 1, .resume 2]

end ConfigTool

namespace ConfigTool

/-! ### Lemmas and theorems for claim C6. -/

/-- The per-element check of the `pages` loop agrees with the claim's
per-element predicate. -/
theorem pageCheck_eq_spec (p : JsVal) :
    (truthy p && typeofObject p && (okStr (getField p "pageType")
      && okStr (getField p "selector") && okStr (getField p "position")))
      = pageObjOkSpec p := by
  have hstr : ∀ v : JsVal, okStr v = nonEmptyStr v := by
    intro v
    cases v <;> simp [okStr, truthy, isString, nonEmptyStr]
  cases p <;>
    simp [truthy, typeofObject, pageObjOkSpec, hstr, getField, nonEmptyStr]

/-- The `pages` loop validates a list exactly when every element passes the
claim's per-element predicate (the loop index only affects messages). -/
theorem validatePages_valid (i : Nat) (ps : List JsVal) :
    (validatePages i ps).valid = ps.all pageObjOkSpec := by
  induction ps generalizing i with
  | nil => rfl
  | cons p rest ih =>
    rw [List.all_cons, ← pageCheck_eq_spec p]
    by_cases h1 : truthy p
    · by_cases h2 : typeofObject p
      · by_cases h3 : okStr (getField p "pageType")
        · by_cases h4 : okStr (getField p "selector")
          · by_cases h5 : okStr (getField p "position")
            · simp [validatePages, h1, h2, h3, h4, h5, ih]
            · simp [validatePages, h1, h2, h3, h4, h5]
          · simp [validatePages, h1, h2, h3, h4]
        · simp [validatePages, h1, h2, h3]
      · simp [validatePages, h1, h2]
    · simp [validatePages, h1]

/-- The sequential string check the source applies to `publisherId` /
`aliasName` (truthy, string, trim non-empty, length bound) agrees with the
amended predicate. -/
theorem strChain_eq (v : JsVal) (n : Nat) (k : Bool) :
    (if !truthy v || !isString v || jsTrim (strVal v) == "" then false
     else if (strVal v).length > n then false
     else k)
      = (trimNonEmptyStrAtMost v n && k) := by
  cases v <;> simp [truthy, isString, strVal, trimNonEmptyStrAtMost]
  case str s =>
    by_cases h1 : jsTrim s = ""
    · have hs : s = "" → jsTrim s = "" := by intro h; rw [h]; rfl
      simp [h1]
    · have hs : s ≠ "" := by
        intro h
        apply h1
        rw [h]
        rfl
      by_cases h2 : s.length > n
      · simp [h1, h2, hs, Nat.not_le.mpr h2]
      · simp [h1, h2, hs, Nat.not_lt.mp h2]

/-- `if !c then false else k` as a conjunction (the `isActive` check). -/
theorem boolGuard (c k : Bool) : (if !c then false else k) = (c && k) := by
  cases c <;> simp

/-- C6 (amended): `validatePublisherConfig` is a total function (it
returns a result value for every input, never throws), and it accepts an
input exactly when the input is an object whose `publisherId` is a string
that is non-empty after trimming whitespace and at most 100 characters,
whose `aliasName` is a string non-empty after trimming and at most 200
characters, whose `isActive` is a boolean, and whose `pages` is an array
each of whose elements is an object with `pageType`, `selector` and
`position` present as non-empty strings; checks run in that order and the
first failing one produces the reason (fail-fast, by construction of the
definition).  The amendment relative to the claim: "non-empty" for
`publisherId`/`aliasName` is "non-empty after trimming" (the source's
`.trim() === ''` checks); see `C6_blank_publisherId_counterexample`. -/
theorem C6_validator_valid_iff_amended_spec (d : JsVal) :
    (validatePublisherConfig d).valid = specConfigValidAmended d := by
  cases d with
  | undefined => rfl
  | null => rfl
  | bool b => simp [validatePublisherConfig, specConfigValidAmended, truthy, typeofObject]
  | num n => simp [validatePublisherConfig, specConfigValidAmended, truthy, typeofObject]
  | str s => simp [validatePublisherConfig, specConfigValidAmended, truthy, typeofObject]
  | arr xs => simp [validatePublisherConfig, specConfigValidAmended, truthy, typeofObject, getField]
  | obj fields =>
    have t1 : truthy (JsVal.obj fields) = true := rfl
    have t2 : typeofObject (JsVal.obj fields) = true := rfl
    rw [validatePublisherConfig]
    cases hp : getField (JsVal.obj fields) "pages" <;>
      simp only [t1, t2, Bool.not_true, Bool.or_self, Bool.false_eq_true, if_false, hp,
        apply_ite ValidationResult.valid, strChain_eq, boolGuard,
        validatePages_valid, specConfigValidAmended, Bool.true_and, Bool.and_assoc,
        Bool.and_false]

/-- C6 counterexample: the input whose `publisherId` is the single space
`" "` satisfies the claim's acceptance condition as stated (a non-empty
string of at most 100 characters, all other fields valid), but
`validatePublisherConfig` rejects it because `" ".trim() === ''`. -/
theorem C6_blank_publisherId_counterexample :
    specConfigValid (JsVal.obj [("publisherId", JsVal.str " "), ("aliasName", JsVal.str "A"),
        ("isActive", JsVal.bool true), ("pages", JsVal.arr [])]) = true
    ∧ (validatePublisherConfig (JsVal.obj [("publisherId", JsVal.str " "), ("aliasName", JsVal.str "A"),
        ("isActive", JsVal.bool true), ("pages", JsVal.arr [])])).valid = false := by
  exact ⟨by decide, by decide⟩

/-! ### Lemmas and theorems for claims C7 and C8 (filename validation). -/

/-- A string accepted by `filenameTail` is good characters followed by
the literal `.json`. -/
theorem filenameTail_decomp (cs : List Char) (h : filenameTail cs = true) :
    ∃ g, cs = g ++ suffixJson ∧ ∀ c ∈ g, isFilenameChar c = true := by
  induction cs with
  | nil => simp [filenameTail] at h
  | cons c rest ih =>
    rw [filenameTail, Bool.or_eq_true] at h
    rcases h with h | h
    · refine ⟨[], ?_, by simp⟩
      simpa using (beq_iff_eq.mp h)
    · rcases Bool.and_eq_true_iff.mp h with ⟨hc, ht⟩
      rcases ih ht with ⟨g, hg, hall⟩
      exact ⟨c :: g, by simp [hg], by
        intro x hx
        rcases List.mem_cons.mp hx with rfl | hx
        · exact hc
        · exact hall x hx⟩

/-- A string matching the filename regex decomposes as a non-empty stem of
characters from `[a-zA-Z0-9_-]` followed by `.json`. -/
theorem regex_decomp (f : String) (h : matchesFilenameRegex f = true) :
    ∃ g, f.data = g ++ suffixJson ∧ g ≠ [] ∧ ∀ c ∈ g, isFilenameChar c = true := by
  rw [matchesFilenameRegex] at h
  rcases hd : f.data with _ | ⟨c, rest⟩
  · rw [hd] at h; simp at h
  · rw [hd] at h
    rcases Bool.and_eq_true_iff.mp h with ⟨hc, ht⟩
    rcases filenameTail_decomp rest ht with ⟨g, hg, hall⟩
    refine ⟨c :: g, by simp [hg], by simp, ?_⟩
    intro x hx
    rcases List.mem_cons.mp hx with rfl | hx
    · exact hc
    · exact hall x hx

/-- `'/'`, `'.'` and the count of `'.'` over the decomposition. -/
theorem stem_chars_facts (c : Char) (h : isFilenameChar c = true) : c ≠ '/' ∧ c ≠ '.' := by
  constructor <;> rintro rfl <;> simp [isFilenameChar, Char.isAlpha, Char.isDigit,
    Char.isUpper, Char.isLower] at h

/-- A regex-matching filename contains no `'/'`. -/
theorem regex_no_slash (f : String) (h : matchesFilenameRegex f = true) :
    '/' ∉ f.data := by
  rcases regex_decomp f h with ⟨g, hg, -, hall⟩
  rw [hg]
  intro hmem
  rcases List.mem_append.mp hmem with hmem | hmem
  · exact ((stem_chars_facts _ (hall _ hmem)).1 rfl).elim
  · simp [suffixJson] at hmem

/-- A regex-matching filename contains exactly one `'.'`, hence never the
substring `".."`. -/
theorem regex_no_dotdot (f : String) (h : matchesFilenameRegex f = true) :
    ¬ List.IsInfix ['.', '.'] f.data := by
  rcases regex_decomp f h with ⟨g, hg, -, hall⟩
  intro hinf
  have hcount : List.count '.' f.data = 1 := by
    rw [hg, List.count_append]
    have hzero : List.count '.' g = 0 := by
      rw [List.count_eq_zero]
      intro hmem
      exact (stem_chars_facts _ (hall _ hmem)).2 rfl
    rw [hzero]
    rfl
  have h2 : List.count '.' ['.', '.'] ≤ List.count '.' f.data :=
    hinf.sublist.count_le '.'
  rw [hcount] at h2
  simp [List.count_cons] at h2

/-- A regex-matching filename ends with `.json`. -/
theorem regex_ends_json (f : String) (h : matchesFilenameRegex f = true) :
    List.IsSuffix suffixJson f.data := by
  rcases regex_decomp f h with ⟨g, hg, -, -⟩
  exact ⟨g, hg.symm⟩

/-- The claim's rejection condition for C7: the filename contains `'/'`,
contains the substring `".."`, or does not end in `".json"`. -/
def badFilename (f : String) : Prop :=
  '/' ∈ f.data ∨ List.IsInfix ['.', '.'] f.data ∨ ¬ List.IsSuffix suffixJson f.data

/-- A bad filename fails the regex, hence `validateFilename`. -/
theorem badFilename_not_validated (f : String) (h : badFilename f) :
    validateFilename f = false := by
  have hreg : matchesFilenameRegex f = false := by
    cases hm : matchesFilenameRegex f
    · rfl
    · rcases h with h | h | h
      · exact absurd h (regex_no_slash f hm)
      · exact absurd h (regex_no_dotdot f hm)
      · exact absurd (regex_ends_json f hm) h
  rw [validateFilename, hreg]
  rfl

/-- C7: a filename containing `'/'` or the substring `".."`, or not
ending in `".json"`, fails `validateFilename`, and every route handler
given such a filename responds 400, leaves the filesystem unchanged and
performs zero filesystem calls; and `validateFilename` accepts only
strings matching `^[a-zA-Z0-9_-]+\.json$` whose resolved path stays
inside the data directory. -/
theorem C7_bad_filenames_rejected_without_io :
    (∀ f, badFilename f →
      validateFilename f = false
      ∧ ∀ (lcmp : String → String → Ordering) (fs : Fs) (body : JsVal),
          getHandler fs f = (400, none, [])
          ∧ putHandler lcmp fs f body = (400, fs, [])
          ∧ createHandler lcmp fs f body = (400, fs, [])
          ∧ deleteHandler fs f = (400, fs, []))
    ∧ (∀ f, validateFilename f = true →
        matchesFilenameRegex f = true ∧ strStartsWith (resolvedPath f) dataDir = true) := by
  constructor
  · intro f h
    have hv := badFilename_not_validated f h
    refine ⟨hv, ?_⟩
    intro lcmp fs body
    refine ⟨?_, ?_, ?_, ?_⟩ <;> simp [getHandler, putHandler, createHandler, deleteHandler, hv]
  · intro f h
    cases hm : matchesFilenameRegex f
    · rw [validateFilename, hm] at h
      exact absurd h (by simp)
    · refine ⟨rfl, ?_⟩
      rw [validateFilename, hm] at h
      exact h

/-- Witness for C7: `"../etc/passwd.json"` (contains both `/` and `..`)
is rejected by every handler with no filesystem call, and
`"acme.json"` is accepted with its resolved path inside the data
directory. -/
theorem C7_bad_filenames_rejected_without_io_witness :
    validateFilename "../etc/passwd.json" = false
    ∧ getHandler [] "../etc/passwd.json" = (400, none, [])
    ∧ putHandler (fun _ _ => Ordering.eq) [] "../etc/passwd.json" JsVal.null = (400, [], [])
    ∧ createHandler (fun _ _ => Ordering.eq) [] "../etc/passwd.json" JsVal.null = (400, [], [])
    ∧ deleteHandler [] "../etc/passwd.json" = (400, [], [])
    ∧ matchesFilenameRegex "acme.json" = true
    ∧ strStartsWith (resolvedPath "acme.json") dataDir = true := by
  have hbad : badFilename "../etc/passwd.json" := Or.inl (by decide)
  have h1 := (C7_bad_filenames_rejected_without_io.1 "../etc/passwd.json" hbad)
  have h2 := (C7_bad_filenames_rejected_without_io.2 "acme.json" (by decide))
  exact ⟨h1.1, (h1.2 (fun _ _ => Ordering.eq) [] JsVal.null).1,
    (h1.2 (fun _ _ => Ordering.eq) [] JsVal.null).2.1,
    (h1.2 (fun _ _ => Ordering.eq) [] JsVal.null).2.2.1,
    (h1.2 (fun _ _ => Ordering.eq) [] JsVal.null).2.2.2, h2.1, h2.2⟩

/-- C8: the index file's own name passes filename validation, so the
per-publisher routes operate on the index file itself: on a state whose
only file is a well-formed index, GET `/api/publisher/publishers.json`
returns the index value; PUT overwrites the index file with the submitted
config (the subsequent internal index read then fails, so the route
answers 500, but the file has been replaced); DELETE removes the index
file (the subsequent internal index read fails with ENOENT, so the route
answers 404, but the file is gone). -/
theorem C8_index_file_reachable_through_config_routes :
    validateFilename "publishers.json" = true
    ∧ getHandler [(indexName, FileData.json (JsVal.obj [("publishers", JsVal.arr [])]))]
        "publishers.json"
        = (200, some (JsVal.obj [("publishers", JsVal.arr [])]), [FsOp.read "publishers.json"])
    ∧ (let put := putHandler (fun _ _ => Ordering.eq)
          [(indexName, FileData.json (JsVal.obj [("publishers", JsVal.arr [])]))]
          "publishers.json"
          (JsVal.obj [("publisherId", JsVal.str "p"), ("aliasName", JsVal.str "P"),
            ("isActive", JsVal.bool true), ("pages", JsVal.arr [])]);
        put.1 = 500
        ∧ Fs.lookup put.2.1 indexName
          = some (FileData.json (JsVal.obj [("publisherId", JsVal.str "p"),
              ("aliasName", JsVal.str "P"), ("isActive", JsVal.bool true),
              ("pages", JsVal.arr [])])))
    ∧ (let del := deleteHandler
          [(indexName, FileData.json (JsVal.obj [("publishers", JsVal.arr [])]))]
          "publishers.json";
        del.1 = 404 ∧ Fs.lookup del.2.1 "publishers.json" = none) := by
  exact ⟨by decide, rfl, ⟨rfl, rfl⟩, ⟨rfl, rfl⟩⟩

/-! ### Filesystem lemmas. -/

/-- `find?` for key `m` is unaffected by filtering out key `n ≠ m`. -/
theorem find?_filter_ne (fs : Fs) (n m : String) (h : ¬ m = n) :
    List.find? (fun e => e.1 == m) (fs.filter (fun e => e.1 != n))
      = List.find? (fun e => e.1 == m) fs := by
  induction fs with
  | nil => rfl
  | cons e rest ih =>
    by_cases he : e.1 = n
    · have hnm : (n == m) = false := by
        rw [beq_eq_false_iff_ne]
        intro hh
        exact h hh.symm
      simp [List.filter_cons, he, List.find?_cons, hnm, ih]
    · by_cases hm : e.1 = m
      · simp [List.filter_cons, he, List.find?_cons, hm, h]
      · simp [List.filter_cons, he, List.find?_cons, hm, ih]

/-- Reading back a just-written file. -/
theorem lookup_write_self (fs : Fs) (n : String) (d : FileData) :
    Fs.lookup (Fs.write fs n d) n = some d := by
  simp [Fs.write, Fs.remove, Fs.lookup, List.find?_cons]

/-- Writing one file does not affect reading another. -/
theorem lookup_write_other (fs : Fs) (n m : String) (d : FileData) (h : m ≠ n) :
    Fs.lookup (Fs.write fs n d) m = Fs.lookup fs m := by
  have hm : (n == m) = false := by
    rw [beq_eq_false_iff_ne]
    intro hh
    exact h hh.symm
  simp only [Fs.write, Fs.remove, Fs.lookup, List.find?_cons, hm]
  rw [find?_filter_ne fs n m h]

/-- A removed file is gone. -/
theorem lookup_remove_self (fs : Fs) (n : String) :
    Fs.lookup (Fs.remove fs n) n = none := by
  induction fs with
  | nil => rfl
  | cons e rest ih =>
    by_cases he : e.1 = n
    · simpa [Fs.remove, Fs.lookup, List.filter_cons, he] using ih
    · simpa [Fs.remove, Fs.lookup, List.filter_cons, List.find?_cons, he] using ih

/-- Removing one file does not affect reading another. -/
theorem lookup_remove_other (fs : Fs) (n m : String) (h : m ≠ n) :
    Fs.lookup (Fs.remove fs n) m = Fs.lookup fs m := by
  simp only [Fs.remove, Fs.lookup]
  rw [find?_filter_ne fs n m h]

/-- Writing a config file other than the index leaves the index read
unchanged. -/
theorem readPublishersList_write_other (fs : Fs) (f : String) (d : FileData)
    (h : f ≠ indexName) :
    readPublishersList (Fs.write fs f d) = readPublishersList fs := by
  rw [readPublishersList, readPublishersList,
    lookup_write_other fs f indexName d (fun hh => h hh.symm)]

/-- Removing a config file other than the index leaves the index read
unchanged. -/
theorem readPublishersList_remove_other (fs : Fs) (f : String) (h : f ≠ indexName) :
    readPublishersList (Fs.remove fs f) = readPublishersList fs := by
  rw [readPublishersList, readPublishersList,
    lookup_remove_other fs f indexName (fun hh => h hh.symm)]

/-- What a successful index read tells us about the state. -/
theorem readPublishersList_ok (fs : Fs) (v : JsVal) (r : List FsOp)
    (h : readPublishersList fs = (.ok v, r)) :
    Fs.lookup fs indexName = some (.json v) ∧ hasPublishersArray v = true
      ∧ r = [.read indexName] := by
  rw [readPublishersList] at h
  rcases hl : Fs.lookup fs indexName with - | d
  · rw [hl] at h
    simp at h
  · rcases d with w | s
    · rw [hl] at h
      dsimp only at h
      by_cases hp : hasPublishersArray w
      · rw [if_pos hp] at h
        have h1 : Except.ok (ε := Err) w = .ok v := congrArg Prod.fst h
        have h2 : w = v := by
          injection h1
        subst h2
        exact ⟨rfl, hp, (congrArg Prod.snd h).symm⟩
      · rw [if_neg hp] at h
        simp at h
    · rw [hl] at h
      simp at h

/-- `find?` for the `publishers` key after the `setPublishers` map. -/
theorem find?_setPublishers (xs : List JsVal) (fields : List (String × JsVal))
    (h : (List.find? (fun f => f.1 == "publishers") fields).isSome = true) :
    List.find? (fun f => f.1 == "publishers")
      (fields.map (fun f => if f.1 == "publishers" then ("publishers", JsVal.arr xs) else f))
      = some ("publishers", JsVal.arr xs) := by
  induction fields with
  | nil => simp at h
  | cons e rest ih =>
    by_cases he : (e.1 == "publishers") = true
    · rw [List.map_cons, if_pos he]
      rfl
    · rw [Bool.not_eq_true] at he
      rw [List.find?_cons] at h
      rw [he] at h
      simp only [cond_false] at h
      rw [List.map_cons, if_neg (by simp [he]), List.find?_cons, he]
      simp only [cond_false]
      exact ih h

/-- Replacing the `publishers` array and reading it back. -/
theorem publishersOf_setPublishers (v : JsVal) (xs : List JsVal)
    (h : hasPublishersArray v = true) :
    publishersOf (setPublishers v xs) = xs := by
  rcases v with - | - | b | n | s | l | fields
  · simp [hasPublishersArray, truthy] at h
  · simp [hasPublishersArray, truthy] at h
  · simp [hasPublishersArray, getField, isArr] at h
  · simp [hasPublishersArray, getField, isArr] at h
  · simp [hasPublishersArray, getField, isArr] at h
  · simp [hasPublishersArray, getField, isArr] at h
  · rw [hasPublishersArray, Bool.and_eq_true_iff] at h
    have harr := h.2
    have hsome : (List.find? (fun f => f.1 == "publishers") fields).isSome = true := by
      rcases hf : List.find? (fun f => f.1 == "publishers") fields with - | e
      · rw [getField] at harr
        rw [hf] at harr
        simp [isArr] at harr
      · rw [hf]
        rfl
    simp only [setPublishers, publishersOf, getField]
    rw [find?_setPublishers xs fields hsome]

/-! ### Sorting lemmas. -/

/-- Inserting permutes. -/
theorem insertBy_perm (le : JsVal → JsVal → Bool) (x : JsVal) (ys : List JsVal) :
    List.Perm (insertBy le x ys) (x :: ys) := by
  induction ys with
  | nil => exact List.Perm.refl _
  | cons y ys ih =>
    rw [insertBy]
    by_cases h : le x y
    · rw [if_pos h]
    · rw [if_neg h]
      exact (List.Perm.cons y ih).trans (List.Perm.swap x y ys)

/-- Sorting permutes. -/
theorem sortBy_perm (le : JsVal → JsVal → Bool) (xs : List JsVal) :
    List.Perm (sortBy le xs) xs := by
  induction xs with
  | nil => exact List.Perm.refl _
  | cons x xs ih =>
    rw [sortBy]
    exact (insertBy_perm le x (sortBy le xs)).trans (List.Perm.cons x ih)

/-- The head after insertion is the new element or the old head. -/
theorem insertBy_head (le : JsVal → JsVal → Bool) (x : JsVal) (ys : List JsVal) :
    (insertBy le x ys).head? = some x ∨ (insertBy le x ys).head? = ys.head? := by
  cases ys with
  | nil => exact .inl rfl
  | cons y ys =>
    rw [insertBy]
    by_cases h : le x y
    · rw [if_pos h]
      exact .inl rfl
    · rw [if_neg h]
      exact .inr rfl

/-- Inserting into a sorted list keeps it sorted, for a total comparator. -/
theorem chain'_insertBy (le : JsVal → JsVal → Bool)
    (htot : ∀ a b, le a b = true ∨ le b a = true) (x : JsVal) (ys : List JsVal)
    (h : List.Chain' (fun a b => le a b = true) ys) :
    List.Chain' (fun a b => le a b = true) (insertBy le x ys) := by
  induction ys with
  | nil => simp [insertBy]
  | cons y ys ih =>
    rw [insertBy]
    by_cases hxy : le x y
    · rw [if_pos hxy]
      exact List.Chain'.cons hxy h
    · rw [if_neg hxy]
      have hyx : le y x = true := (htot x y).resolve_left hxy
      have hins := ih h.tail
      rw [List.chain'_cons']
      refine ⟨?_, hins⟩
      intro z hz
      rcases insertBy_head le x ys with hh | hh
      · rw [hh] at hz
        obtain rfl := Option.mem_some_iff.mp hz
        exact hyx
      · rw [hh] at hz
        exact (List.chain'_cons'.mp h).1 z hz

/-- Sorting yields a sorted list, for a total comparator. -/
theorem chain'_sortBy (le : JsVal → JsVal → Bool)
    (htot : ∀ a b, le a b = true ∨ le b a = true) (xs : List JsVal) :
    List.Chain' (fun a b => le a b = true) (sortBy le xs) := by
  induction xs with
  | nil => simp [sortBy]
  | cons x xs ih =>
    rw [sortBy]
    exact chain'_insertBy le htot x _ ih

/-- Totality of `localeCompare` as the claims assume it: opposite
comparisons are never both positive. -/
def LcmpTotal (lcmp : String → String → Ordering) : Prop :=
  ∀ a b : String, lcmp a b ≠ .gt ∨ lcmp b a ≠ .gt

/-- `aliasLe` is a total comparator whenever `lcmp` is. -/
theorem aliasLe_total (lcmp : String → String → Ordering) (h : LcmpTotal lcmp) :
    ∀ a b, aliasLe lcmp a b = true ∨ aliasLe lcmp b a = true := by
  have hne : ∀ o : Ordering, o ≠ .gt → (o != Ordering.gt) = true := by
    intro o ho
    cases o
    · rfl
    · rfl
    · exact absurd rfl ho
  intro a b
  rcases h (aliasOf a) (aliasOf b) with h1 | h1
  · refine .inl ?_
    rw [aliasLe]
    exact hne _ h1
  · refine .inr ?_
    rw [aliasLe]
    exact hne _ h1

/-! ### Claim C10. -/

/-- C10: `readPublishersList` fails with the ENOENT condition exactly when
the index file is absent, with the distinct corrupted-index condition
exactly when the file's content does not parse as JSON, and with the
distinct invalid-structure condition exactly when the parsed value lacks a
`publishers` field that is an array; on a parseable, structurally valid
file it returns the parsed value.  In every case its only filesystem call
is the one read — it never writes or unlinks (no automatic repair). -/
theorem C10_read_publishers_list_cases (fs : Fs) :
    (Fs.lookup fs indexName = none →
      readPublishersList fs = (.error .enoent, [.read indexName]))
    ∧ (∀ s, Fs.lookup fs indexName = some (.raw s) →
      readPublishersList fs = (.error .corruptedIndex, [.read indexName]))
    ∧ (∀ v, Fs.lookup fs indexName = some (.json v) → hasPublishersArray v = false →
      readPublishersList fs = (.error .invalidStructure, [.read indexName]))
    ∧ (∀ v, Fs.lookup fs indexName = some (.json v) → hasPublishersArray v = true →
      readPublishersList fs = (.ok v, [.read indexName]))
    ∧ ∀ n, FsOp.write n ∉ (readPublishersList fs).2 ∧ FsOp.unlink n ∉ (readPublishersList fs).2 := by
  refine ⟨?_, ?_, ?_, ?_, ?_⟩
  · intro h
    rw [readPublishersList, h]
  · intro s h
    rw [readPublishersList, h]
  · intro v h hp
    rw [readPublishersList, h]
    simp [hp]
  · intro v h hp
    rw [readPublishersList, h]
    simp [hp]
  · intro n
    rcases hl : Fs.lookup fs indexName with - | d
    · simp [readPublishersList, hl]
    · rcases d with w | s
      · by_cases hp : hasPublishersArray w <;> simp [readPublishersList, hl, hp]
      · simp [readPublishersList, hl]

/-- Witness for C10: the four cases at concrete states — missing index,
non-JSON index, JSON index without a `publishers` array, and a valid
index. -/
theorem C10_read_publishers_list_cases_witness :
    readPublishersList [] = (.error .enoent, [.read indexName])
    ∧ readPublishersList [(indexName, FileData.raw "oops")]
      = (.error .corruptedIndex, [.read indexName])
    ∧ readPublishersList [(indexName, FileData.json (JsVal.str "x"))]
      = (.error .invalidStructure, [.read indexName])
    ∧ readPublishersList [(indexName, FileData.json (JsVal.obj [("publishers", JsVal.arr [])]))]
      = (.ok (JsVal.obj [("publishers", JsVal.arr [])]), [.read indexName])
    ∧ FsOp.write "acme.json" ∉ (readPublishersList [(indexName, FileData.raw "oops")]).2 := by
  refine ⟨(C10_read_publishers_list_cases []).1 rfl,
    (C10_read_publishers_list_cases _).2.1 "oops" rfl,
    (C10_read_publishers_list_cases _).2.2.1 (JsVal.str "x") rfl (by decide),
    (C10_read_publishers_list_cases _).2.2.2.1 _ rfl (by decide),
    ((C10_read_publishers_list_cases _).2.2.2.2 "acme.json").1⟩

/-! ### Claim C3. -/

/-- C3: Create fails with Conflict (409) when the config file already
exists (pre-check), or when an index entry already carries the submitted
`publisherId`, and in both cases the filesystem — the index file and the
set of config files — is returned unchanged; moreover the re-check
performed inside the lock also fails with the `already exists` error
(mapped to 409 by the route) on any state in which the file exists,
leaving that state unchanged — so the lock-time check wins over the
pre-check in a race. -/
theorem C3_create_conflicts_are_409_and_leave_state_unchanged :
    (∀ (lcmp : String → String → Ordering) (fs : Fs) (f : String) (body : JsVal) (d : FileData),
      validateFilename f = true → (validatePublisherConfig body).valid = true →
      Fs.lookup fs f = some d →
      createHandler lcmp fs f body = (409, fs, [.access f]))
    ∧ (∀ (lcmp : String → String → Ordering) (fs : Fs) (f : String) (body v : JsVal)
        (rops : List FsOp),
      validateFilename f = true → (validatePublisherConfig body).valid = true →
      Fs.lookup fs f = none →
      readPublishersList fs = (.ok v, rops) →
      (publishersOf v).any (idEq body) = true →
      createHandler lcmp fs f body = (409, fs, .access f :: rops))
    ∧ (∀ (lcmp : String → String → Ordering) (fs : Fs) (f : String) (body : JsVal)
        (d : FileData),
      Fs.lookup fs f = some d →
      createLocked lcmp fs f body = (.error .alreadyExists, fs, [.access f])) := by
  refine ⟨?_, ?_, ?_⟩
  · intro lcmp fs f body d hval hbody hl
    simp [createHandler, hval, hbody, hl]
  · intro lcmp fs f body v rops hval hbody hl hread hany
    simp [createHandler, hval, hbody, hl, hread, hany]
  · intro lcmp fs f body d hl
    simp [createLocked, hl]

/-- Witness for C3: a state holding `acme.json` and an index with an
entry for id `acme` under another file; repeating the create 409s in all
three ways. -/
theorem C3_create_conflicts_witness :
    createHandler (fun _ _ => Ordering.eq)
        [("acme.json", FileData.json JsVal.null)] "acme.json"
        (JsVal.obj [("publisherId", JsVal.str "acme"), ("aliasName", JsVal.str "Acme Co"),
          ("isActive", JsVal.bool true), ("pages", JsVal.arr [])])
      = (409, [("acme.json", FileData.json JsVal.null)], [.access "acme.json"])
    ∧ createHandler (fun _ _ => Ordering.eq)
        [(indexName, FileData.json (JsVal.obj [("publishers", JsVal.arr
            [JsVal.obj [("id", JsVal.str "acme"), ("alias", JsVal.str "A"),
              ("file", JsVal.str "other.json")]])]))]
        "acme.json"
        (JsVal.obj [("publisherId", JsVal.str "acme"), ("aliasName", JsVal.str "Acme Co"),
          ("isActive", JsVal.bool true), ("pages", JsVal.arr [])])
      = (409, [(indexName, FileData.json (JsVal.obj [("publishers", JsVal.arr
            [JsVal.obj [("id", JsVal.str "acme"), ("alias", JsVal.str "A"),
              ("file", JsVal.str "other.json")]])]))],
          [.access "acme.json", .read indexName])
    ∧ createLocked (fun _ _ => Ordering.eq)
        [("acme.json", FileData.json JsVal.null)] "acme.json"
        (JsVal.obj [("publisherId", JsVal.str "acme"), ("aliasName", JsVal.str "Acme Co"),
          ("isActive", JsVal.bool true), ("pages", JsVal.arr [])])
      = (.error .alreadyExists, [("acme.json", FileData.json JsVal.null)], [.access "acme.json"]) := by
  refine ⟨C3_create_conflicts_are_409_and_leave_state_unchanged.1 _ _ _ _
      (FileData.json JsVal.null) (by decide) (by decide) rfl,
    C3_create_conflicts_are_409_and_leave_state_unchanged.2.1 _ _ _ _
      (JsVal.obj [("publishers", JsVal.arr
        [JsVal.obj [("id", JsVal.str "acme"), ("alias", JsVal.str "A"),
          ("file", JsVal.str "other.json")]])])
      [.read indexName] (by decide) (by decide) rfl rfl (by decide),
    C3_create_conflicts_are_409_and_leave_state_unchanged.2.2 _ _ _ _
      (FileData.json JsVal.null) rfl⟩

/-! ### Claim C9. -/

/-- C9 counterexample: the claim quantifies over every valid filename,
but at `f = "publishers.json"` (which `validateFilename` accepts, see C8)
an Update on a state whose index has no entry for `f` does **not**
succeed: the handler first overwrites `publishers.json` with the config
body, then its internal index read finds no `publishers` array and the
route answers 500. -/
theorem C9_update_index_filename_counterexample :
    validateFilename "publishers.json" = true
    ∧ (validatePublisherConfig (JsVal.obj [("publisherId", JsVal.str "p"),
        ("aliasName", JsVal.str "P"), ("isActive", JsVal.bool true),
        ("pages", JsVal.arr [])])).valid = true
    ∧ (publishersOf (JsVal.obj [("publishers", JsVal.arr [])])).findIdx?
        (fileEq "publishers.json") = none
    ∧ readPublishersList [(indexName, FileData.json (JsVal.obj [("publishers", JsVal.arr [])]))]
        = (.ok (JsVal.obj [("publishers", JsVal.arr [])]), [.read indexName])
    ∧ (putHandler (fun _ _ => Ordering.eq)
        [(indexName, FileData.json (JsVal.obj [("publishers", JsVal.arr [])]))]
        "publishers.json"
        (JsVal.obj [("publisherId", JsVal.str "p"), ("aliasName", JsVal.str "P"),
          ("isActive", JsVal.bool true), ("pages", JsVal.arr [])])).1 = 500 := by
  exact ⟨by decide, by decide, rfl, rfl, rfl⟩

/-- C9 (amended): for every valid filename `f` **other than the index
file's own name `publishers.json`** and valid config, if the index has no
entry whose `file` equals `f`, Update still succeeds with 200: the config
file is overwritten with exactly the submitted body (full overwrite, no
merge) and the index is persisted with its value unchanged. -/
theorem C9_update_succeeds_without_index_entry
    (lcmp : String → String → Ordering) (fs : Fs) (f : String) (body v : JsVal)
    (rops : List FsOp)
    (hval : validateFilename f = true)
    (hbody : (validatePublisherConfig body).valid = true)
    (hf : f ≠ indexName)
    (hread : readPublishersList fs = (.ok v, rops))
    (_hwf : (publishersOf v).all wfItem = true)
    (hnone : (publishersOf v).findIdx? (fileEq f) = none) :
    putHandler lcmp fs f body
      = (200, Fs.write (Fs.write fs f (.json body)) indexName (.json v),
          .write f :: rops ++ [.write indexName])
    ∧ Fs.lookup (Fs.write (Fs.write fs f (.json body)) indexName (.json v)) f
      = some (.json body)
    ∧ Fs.lookup (Fs.write (Fs.write fs f (.json body)) indexName (.json v)) indexName
      = some (.json v) := by
  have hread1 : readPublishersList (Fs.write fs f (.json body)) = (.ok v, rops) := by
    rw [readPublishersList_write_other fs f _ hf]
    exact hread
  refine ⟨?_, ?_, ?_⟩
  · simp [putHandler, hval, hbody, hread1, hnone]
  · rw [lookup_write_other _ _ _ _ hf, lookup_write_self]
  · rw [lookup_write_self]

/-- Witness for C9 (amended) at `f = "acme.json"` on an empty index. -/
theorem C9_update_succeeds_without_index_entry_witness :
    putHandler (fun _ _ => Ordering.eq)
        [(indexName, FileData.json (JsVal.obj [("publishers", JsVal.arr [])]))]
        "acme.json"
        (JsVal.obj [("publisherId", JsVal.str "p"), ("aliasName", JsVal.str "P"),
          ("isActive", JsVal.bool true), ("pages", JsVal.arr [])])
      = (200, Fs.write (Fs.write [(indexName, FileData.json (JsVal.obj [("publishers", JsVal.arr [])]))]
            "acme.json" (.json (JsVal.obj [("publisherId", JsVal.str "p"),
              ("aliasName", JsVal.str "P"), ("isActive", JsVal.bool true),
              ("pages", JsVal.arr [])])))
          indexName (.json (JsVal.obj [("publishers", JsVal.arr [])])),
          .write "acme.json" :: [.read indexName] ++ [.write indexName])
    ∧ Fs.lookup (Fs.write (Fs.write [(indexName, FileData.json (JsVal.obj [("publishers", JsVal.arr [])]))]
          "acme.json" (.json (JsVal.obj [("publisherId", JsVal.str "p"),
            ("aliasName", JsVal.str "P"), ("isActive", JsVal.bool true),
            ("pages", JsVal.arr [])])))
        indexName (.json (JsVal.obj [("publishers", JsVal.arr [])]))) "acme.json"
      = some (.json (JsVal.obj [("publisherId", JsVal.str "p"), ("aliasName", JsVal.str "P"),
          ("isActive", JsVal.bool true), ("pages", JsVal.arr [])])) := by
  have h := C9_update_succeeds_without_index_entry (fun _ _ => Ordering.eq)
    [(indexName, FileData.json (JsVal.obj [("publishers", JsVal.arr [])]))]
    "acme.json"
    (JsVal.obj [("publisherId", JsVal.str "p"), ("aliasName", JsVal.str "P"),
      ("isActive", JsVal.bool true), ("pages", JsVal.arr [])])
    (JsVal.obj [("publishers", JsVal.arr [])]) [.read indexName]
    (by decide) (by decide) (by decide) rfl rfl rfl
  exact ⟨h.1, h.2.1⟩

/-! ### Claim C5. -/

/-- C5 counterexample: the claim quantifies over every valid filename,
but at `f = "publishers.json"` (accepted by `validateFilename`, see C8)
Delete on a state in which that file is present unlinks the index file
itself, the internal index read then fails with ENOENT, the route answers
404, and no index is persisted at all — contradicting "removes the config
file and persists an index from which every entry whose file field equals
f has been removed". -/
theorem C5_delete_index_filename_counterexample :
    validateFilename "publishers.json" = true
    ∧ Fs.lookup [(indexName, FileData.json (JsVal.obj [("publishers", JsVal.arr [])]))]
        "publishers.json"
      = some (FileData.json (JsVal.obj [("publishers", JsVal.arr [])]))
    ∧ deleteHandler [(indexName, FileData.json (JsVal.obj [("publishers", JsVal.arr [])]))]
        "publishers.json"
      = (404, [], [.unlink indexName, .read indexName])
    ∧ Fs.lookup (deleteHandler [(indexName, FileData.json (JsVal.obj [("publishers", JsVal.arr [])]))]
        "publishers.json").2.1 indexName = none := by
  exact ⟨by decide, rfl, rfl, rfl⟩

/-- C5 (amended): for every valid filename `f` **other than the index
file's own name `publishers.json`**: if the config file `f` is absent,
Delete fails with 404, the filesystem is unchanged and the index file is
neither read nor modified (the only call is the failing unlink); if `f`
is present (and the index is readable, as the data model guarantees),
Delete removes the config file and persists an index in which exactly the
entries whose `file` field equals `f` have been filtered out, all other
entries unchanged. -/
theorem C5_delete_absent_404_present_removes :
    (∀ (fs : Fs) (f : String),
      validateFilename f = true →
      Fs.lookup fs f = none →
      deleteHandler fs f = (404, fs, [.unlink f])
      ∧ FsOp.read indexName ∉ [FsOp.unlink f])
    ∧ (∀ (fs : Fs) (f : String) (d : FileData) (v : JsVal) (rops : List FsOp),
      validateFilename f = true →
      f ≠ indexName →
      Fs.lookup fs f = some d →
      readPublishersList fs = (.ok v, rops) →
      (publishersOf v).all wfItem = true →
      deleteHandler fs f
        = (200, Fs.write (Fs.remove fs f) indexName
            (.json (setPublishers v ((publishersOf v).filter (fun p => !fileEq f p)))),
          .unlink f :: rops ++ [.write indexName])
      ∧ Fs.lookup (Fs.write (Fs.remove fs f) indexName
            (.json (setPublishers v ((publishersOf v).filter (fun p => !fileEq f p))))) f
        = none
      ∧ publishersOf (setPublishers v ((publishersOf v).filter (fun p => !fileEq f p)))
        = (publishersOf v).filter (fun p => !fileEq f p)) := by
  constructor
  · intro fs f hval hnone
    refine ⟨?_, by simp⟩
    simp [deleteHandler, hval, hnone]
  · intro fs f d v rops hval hf hsome hread _hwf
    have hread1 : readPublishersList (Fs.remove fs f) = (.ok v, rops) := by
      rw [readPublishersList_remove_other fs f hf]
      exact hread
    refine ⟨?_, ?_, ?_⟩
    · simp [deleteHandler, hval, hsome, hread1]
    · rw [lookup_write_other _ _ _ _ hf, lookup_remove_self]
    · exact publishersOf_setPublishers v _ (readPublishersList_ok fs v rops hread).2.1

/-- Witness for C5 (amended): 404 on an absent file; removing
`beta.json` deletes the file and persists the index with exactly the
`beta.json` entry filtered out. -/
theorem C5_delete_absent_404_present_removes_witness :
    deleteHandler [(indexName, FileData.json (JsVal.obj [("publishers", JsVal.arr [])]))]
        "ghost.json"
      = (404, [(indexName, FileData.json (JsVal.obj [("publishers", JsVal.arr [])]))],
          [.unlink "ghost.json"])
    ∧ deleteHandler
        [("beta.json", FileData.json JsVal.null),
         (indexName, FileData.json (JsVal.obj [("publishers", JsVal.arr
            [JsVal.obj [("id", JsVal.str "b"), ("alias", JsVal.str "B"),
              ("file", JsVal.str "beta.json")]])]))]
        "beta.json"
      = (200, [(indexName, FileData.json (JsVal.obj [("publishers", JsVal.arr [])]))],
          [.unlink "beta.json", .read indexName, .write indexName]) := by
  constructor
  · exact (C5_delete_absent_404_present_removes.1
      [(indexName, FileData.json (JsVal.obj [("publishers", JsVal.arr [])]))]
      "ghost.json" (by decide) rfl).1
  · rw [(C5_delete_absent_404_present_removes.2
      [("beta.json", FileData.json JsVal.null),
       (indexName, FileData.json (JsVal.obj [("publishers", JsVal.arr
          [JsVal.obj [("id", JsVal.str "b"), ("alias", JsVal.str "B"),
            ("file", JsVal.str "beta.json")]])]))]
      "beta.json" (FileData.json JsVal.null)
      (JsVal.obj [("publishers", JsVal.arr
        [JsVal.obj [("id", JsVal.str "b"), ("alias", JsVal.str "B"),
          ("file", JsVal.str "beta.json")]])])
      [.read indexName] (by decide) (by decide) rfl rfl (by decide)).1]
    rfl

/-! ### Claim C2. -/

/-- The entry the POST handler pushes does carry `file = f`. -/
theorem fileEq_newIndexItem (body : JsVal) (f : String) :
    fileEq f (newIndexItem body f) = true := by
  have h1 : (("id" : String) == "file") = false := by decide
  have h2 : (("alias" : String) == "file") = false := by decide
  simp [fileEq, newIndexItem, getField, List.find?_cons, h1, h2, jsStrictEq]

/-- C2: on a state where the config file `f` does not exist (and hence,
by the index invariant of the data model, no index entry carries
`file = f`), a Create that passes its checks succeeds with 201; a
subsequent Get with no intervening writes returns a config structurally
equal to the submitted one; and the persisted index contains exactly one
entry whose `file` field equals `f`. -/
theorem C2_create_then_get_roundtrip
    (lcmp : String → String → Ordering) (fs : Fs) (f : String) (body v : JsVal)
    (rops : List FsOp)
    (hval : validateFilename f = true)
    (hbody : (validatePublisherConfig body).valid = true)
    (hnofile : Fs.lookup fs f = none)
    (hread : readPublishersList fs = (.ok v, rops))
    (_hwf : (publishersOf v).all wfItem = true)
    (hnodup : (publishersOf v).any (idEq body) = false)
    (hnoentry : (publishersOf v).countP (fileEq f) = 0) :
    createHandler lcmp fs f body
      = (201,
          Fs.write (Fs.write fs f (.json body)) indexName
            (.json (setPublishers v
              (sortBy (aliasLe lcmp) (publishersOf v ++ [newIndexItem body f])))),
          .access f :: rops ++ (.access f :: .write f :: rops ++ [.write indexName]))
    ∧ getHandler
        (Fs.write (Fs.write fs f (.json body)) indexName
          (.json (setPublishers v
            (sortBy (aliasLe lcmp) (publishersOf v ++ [newIndexItem body f]))))) f
      = (200, some body, [.read f])
    ∧ Fs.lookup
        (Fs.write (Fs.write fs f (.json body)) indexName
          (.json (setPublishers v
            (sortBy (aliasLe lcmp) (publishersOf v ++ [newIndexItem body f]))))) indexName
      = some (.json (setPublishers v
          (sortBy (aliasLe lcmp) (publishersOf v ++ [newIndexItem body f]))))
    ∧ (publishersOf (setPublishers v
        (sortBy (aliasLe lcmp) (publishersOf v ++ [newIndexItem body f])))).countP (fileEq f)
      = 1 := by
  have hfne : f ≠ indexName := by
    intro h
    rw [h, (readPublishersList_ok fs v rops hread).1] at hnofile
    simp at hnofile
  have hread1 : readPublishersList (Fs.write fs f (.json body)) = (.ok v, rops) := by
    rw [readPublishersList_write_other fs f _ hfne]
    exact hread
  have hlock : createLocked lcmp fs f body
      = (.ok (), Fs.write (Fs.write fs f (.json body)) indexName
          (.json (setPublishers v
            (sortBy (aliasLe lcmp) (publishersOf v ++ [newIndexItem body f])))),
        .access f :: .write f :: rops ++ [.write indexName]) := by
    simp [createLocked, hnofile, hread1]
  have hlookup : Fs.lookup
      (Fs.write (Fs.write fs f (.json body)) indexName
        (.json (setPublishers v
          (sortBy (aliasLe lcmp) (publishersOf v ++ [newIndexItem body f]))))) f
      = some (.json body) := by
    rw [lookup_write_other _ _ _ _ hfne, lookup_write_self]
  refine ⟨?_, ?_, ?_, ?_⟩
  · simp [createHandler, hval, hbody, hnofile, hread, hnodup, hlock]
  · simp [getHandler, hval, hlookup]
  · exact lookup_write_self _ _ _
  · rw [publishersOf_setPublishers _ _ (readPublishersList_ok fs v rops hread).2.1]
    rw [List.Perm.countP_eq _ (sortBy_perm (aliasLe lcmp) _)]
    rw [List.countP_append, hnoentry]
    simp [List.countP_cons, fileEq_newIndexItem]

/-- Witness for C2: creating `acme.json` on an empty index, then reading
it back. -/
theorem C2_create_then_get_roundtrip_witness :
    (createHandler (fun _ _ => Ordering.eq)
        [(indexName, FileData.json (JsVal.obj [("publishers", JsVal.arr [])]))]
        "acme.json"
        (JsVal.obj [("publisherId", JsVal.str "acme"), ("aliasName", JsVal.str "Acme Co"),
          ("isActive", JsVal.bool true), ("pages", JsVal.arr [])])).1 = 201
    ∧ getHandler (createHandler (fun _ _ => Ordering.eq)
        [(indexName, FileData.json (JsVal.obj [("publishers", JsVal.arr [])]))]
        "acme.json"
        (JsVal.obj [("publisherId", JsVal.str "acme"), ("aliasName", JsVal.str "Acme Co"),
          ("isActive", JsVal.bool true), ("pages", JsVal.arr [])])).2.1 "acme.json"
      = (200, some (JsVal.obj [("publisherId", JsVal.str "acme"), ("aliasName", JsVal.str "Acme Co"),
          ("isActive", JsVal.bool true), ("pages", JsVal.arr [])]), [.read "acme.json"])
    ∧ Fs.lookup (createHandler (fun _ _ => Ordering.eq)
        [(indexName, FileData.json (JsVal.obj [("publishers", JsVal.arr [])]))]
        "acme.json"
        (JsVal.obj [("publisherId", JsVal.str "acme"), ("aliasName", JsVal.str "Acme Co"),
          ("isActive", JsVal.bool true), ("pages", JsVal.arr [])])).2.1 indexName
      = some (.json (JsVal.obj [("publishers", JsVal.arr
          [JsVal.obj [("id", JsVal.str "acme"), ("alias", JsVal.str "Acme Co"),
            ("file", JsVal.str "acme.json")]])])) := by
  have h := C2_create_then_get_roundtrip (fun _ _ => Ordering.eq)
    [(indexName, FileData.json (JsVal.obj [("publishers", JsVal.arr [])]))]
    "acme.json"
    (JsVal.obj [("publisherId", JsVal.str "acme"), ("aliasName", JsVal.str "Acme Co"),
      ("isActive", JsVal.bool true), ("pages", JsVal.arr [])])
    (JsVal.obj [("publishers", JsVal.arr [])]) [.read indexName]
    (by decide) (by decide) rfl rfl rfl rfl rfl
  refine ⟨?_, ?_, ?_⟩
  · rw [h.1]
  · rw [h.1]
    exact h.2.1
  · rw [h.1, h.2.2.1]
    rfl

/-! ### Claim C4. -/

/-- C4: whenever the index state is valid (well-formed entries, sorted
ascending by alias under the locale comparison), the index persisted by a
successful Create, and by a successful Update whose submitted `aliasName`
differs from the stored alias, is again sorted: every adjacent pair of
entries satisfies `alias[i] ≤ alias[i+1]` under the locale comparison
(`aliasLe lcmp`, for any total `localeCompare`-like comparator). -/
theorem C4_index_stays_sorted_by_alias :
    (∀ (lcmp : String → String → Ordering) (fs : Fs) (f : String) (body v : JsVal)
        (rops : List FsOp),
      LcmpTotal lcmp →
      validateFilename f = true → (validatePublisherConfig body).valid = true →
      Fs.lookup fs f = none →
      readPublishersList fs = (.ok v, rops) →
      (publishersOf v).all wfItem = true →
      List.Chain' (fun a b => aliasLe lcmp a b = true) (publishersOf v) →
      (publishersOf v).any (idEq body) = false →
      createHandler lcmp fs f body
        = (201,
            Fs.write (Fs.write fs f (.json body)) indexName
              (.json (setPublishers v
                (sortBy (aliasLe lcmp) (publishersOf v ++ [newIndexItem body f])))),
            .access f :: rops ++ (.access f :: .write f :: rops ++ [.write indexName]))
      ∧ publishersOf (setPublishers v
          (sortBy (aliasLe lcmp) (publishersOf v ++ [newIndexItem body f])))
        = sortBy (aliasLe lcmp) (publishersOf v ++ [newIndexItem body f])
      ∧ List.Chain' (fun a b => aliasLe lcmp a b = true)
          (sortBy (aliasLe lcmp) (publishersOf v ++ [newIndexItem body f])))
    ∧ (∀ (lcmp : String → String → Ordering) (fs : Fs) (f : String) (body v : JsVal)
        (rops : List FsOp) (i : Nat),
      LcmpTotal lcmp →
      validateFilename f = true → (validatePublisherConfig body).valid = true →
      readPublishersList (Fs.write fs f (.json body)) = (.ok v, rops) →
      (publishersOf v).all wfItem = true →
      List.Chain' (fun a b => aliasLe lcmp a b = true) (publishersOf v) →
      (publishersOf v).findIdx? (fileEq f) = some i →
      jsStrictEq (getField ((publishersOf v).getD i .undefined) "alias")
        (jsOr (getField body "aliasName") (.str "")) = false →
      putHandler lcmp fs f body
        = (200,
            Fs.write (Fs.write fs f (.json body)) indexName
              (.json (setPublishers v
                (sortBy (aliasLe lcmp)
                  ((publishersOf v).set i (setField ((publishersOf v).getD i .undefined)
                    "alias" (jsOr (getField body "aliasName") (.str ""))))))),
            .write f :: rops ++ [.write indexName])
      ∧ publishersOf (setPublishers v
          (sortBy (aliasLe lcmp)
            ((publishersOf v).set i (setField ((publishersOf v).getD i .undefined)
              "alias" (jsOr (getField body "aliasName") (.str ""))))))
        = sortBy (aliasLe lcmp)
            ((publishersOf v).set i (setField ((publishersOf v).getD i .undefined)
              "alias" (jsOr (getField body "aliasName") (.str ""))))
      ∧ List.Chain' (fun a b => aliasLe lcmp a b = true)
          (sortBy (aliasLe lcmp)
            ((publishersOf v).set i (setField ((publishersOf v).getD i .undefined)
              "alias" (jsOr (getField body "aliasName") (.str "")))))) := by
  constructor
  · intro lcmp fs f body v rops htot hval hbody hnofile hread _hwf _hsorted hnodup
    have hfne : f ≠ indexName := by
      intro h
      rw [h, (readPublishersList_ok fs v rops hread).1] at hnofile
      simp at hnofile
    have hread1 : readPublishersList (Fs.write fs f (.json body)) = (.ok v, rops) := by
      rw [readPublishersList_write_other fs f _ hfne]
      exact hread
    have hlock : createLocked lcmp fs f body
        = (.ok (), Fs.write (Fs.write fs f (.json body)) indexName
            (.json (setPublishers v
              (sortBy (aliasLe lcmp) (publishersOf v ++ [newIndexItem body f])))),
          .access f :: .write f :: rops ++ [.write indexName]) := by
      simp [createLocked, hnofile, hread1]
    refine ⟨?_, ?_, ?_⟩
    · simp [createHandler, hval, hbody, hnofile, hread, hnodup, hlock]
    · exact publishersOf_setPublishers _ _ (readPublishersList_ok fs v rops hread).2.1
    · exact chain'_sortBy _ (aliasLe_total lcmp htot) _
  · intro lcmp fs f body v rops i htot hval hbody hread1 _hwf _hsorted hidx hdiff
    have hdiff2 : jsStrictEq (getField ((publishersOf v)[i]?.getD JsVal.undefined) "alias")
        (jsOr (getField body "aliasName") (.str "")) = false := by
      simpa [List.getD] using hdiff
    refine ⟨?_, ?_, ?_⟩
    · simp [putHandler, hval, hbody, hread1, hidx, hdiff2, List.getD]
    · exact publishersOf_setPublishers _ _
        (readPublishersList_ok _ v rops hread1).2.1
    · exact chain'_sortBy _ (aliasLe_total lcmp htot) _

/-- Witness for C4: creating `acme.json` on a one-entry index, and an
alias-changing update of `acme.json`, both with a (trivially total)
comparator; in each case the persisted `publishers` array is the sorted
one. -/
theorem C4_index_stays_sorted_by_alias_witness :
    (createHandler (fun _ _ => Ordering.eq)
        [(indexName, FileData.json (JsVal.obj [("publishers", JsVal.arr
          [JsVal.obj [("id", JsVal.str "beta"), ("alias", JsVal.str "Beta"),
            ("file", JsVal.str "beta.json")]])]))]
        "acme.json"
        (JsVal.obj [("publisherId", JsVal.str "acme"), ("aliasName", JsVal.str "Acme Co"),
          ("isActive", JsVal.bool true), ("pages", JsVal.arr [])])).1 = 201
    ∧ List.Chain' (fun a b => aliasLe (fun _ _ => Ordering.eq) a b = true)
        (sortBy (aliasLe (fun _ _ => Ordering.eq))
          (publishersOf (JsVal.obj [("publishers", JsVal.arr
            [JsVal.obj [("id", JsVal.str "beta"), ("alias", JsVal.str "Beta"),
              ("file", JsVal.str "beta.json")]])])
            ++ [newIndexItem (JsVal.obj [("publisherId", JsVal.str "acme"),
                ("aliasName", JsVal.str "Acme Co"), ("isActive", JsVal.bool true),
                ("pages", JsVal.arr [])]) "acme.json"]))
    ∧ (putHandler (fun _ _ => Ordering.eq)
        [("acme.json", FileData.json JsVal.null),
         (indexName, FileData.json (JsVal.obj [("publishers", JsVal.arr
          [JsVal.obj [("id", JsVal.str "acme"), ("alias", JsVal.str "Acme Co"),
            ("file", JsVal.str "acme.json")]])]))]
        "acme.json"
        (JsVal.obj [("publisherId", JsVal.str "acme"), ("aliasName", JsVal.str "Zeta Co"),
          ("isActive", JsVal.bool true), ("pages", JsVal.arr [])])).1 = 200 := by
  have htot : LcmpTotal (fun _ _ => Ordering.eq) :=
    fun _ _ => Or.inl (fun h => Ordering.noConfusion h)
  have h1 := C4_index_stays_sorted_by_alias.1 (fun _ _ => Ordering.eq)
    [(indexName, FileData.json (JsVal.obj [("publishers", JsVal.arr
      [JsVal.obj [("id", JsVal.str "beta"), ("alias", JsVal.str "Beta"),
        ("file", JsVal.str "beta.json")]])]))]
    "acme.json"
    (JsVal.obj [("publisherId", JsVal.str "acme"), ("aliasName", JsVal.str "Acme Co"),
      ("isActive", JsVal.bool true), ("pages", JsVal.arr [])])
    (JsVal.obj [("publishers", JsVal.arr
      [JsVal.obj [("id", JsVal.str "beta"), ("alias", JsVal.str "Beta"),
        ("file", JsVal.str "beta.json")]])])
    [.read indexName]
    htot (by decide) (by decide) rfl rfl (by decide) (List.chain'_singleton _) (by decide)
  have h2 := C4_index_stays_sorted_by_alias.2 (fun _ _ => Ordering.eq)
    [("acme.json", FileData.json JsVal.null),
     (indexName, FileData.json (JsVal.obj [("publishers", JsVal.arr
      [JsVal.obj [("id", JsVal.str "acme"), ("alias", JsVal.str "Acme Co"),
        ("file", JsVal.str "acme.json")]])]))]
    "acme.json"
    (JsVal.obj [("publisherId", JsVal.str "acme"), ("aliasName", JsVal.str "Zeta Co"),
      ("isActive", JsVal.bool true), ("pages", JsVal.arr [])])
    (JsVal.obj [("publishers", JsVal.arr
      [JsVal.obj [("id", JsVal.str "acme"), ("alias", JsVal.str "Acme Co"),
        ("file", JsVal.str "acme.json")]])])
    [.read indexName] 0
    htot (by decide) (by decide) rfl (by decide) (List.chain'_singleton _) rfl (by decide)
  refine ⟨?_, h1.2.2, ?_⟩
  · rw [h1.1]
  · rw [h2.1]

/-! ### Claim C1. -/

/-- C1 (code bug in `withFileLock`): with three concurrent callers on the
same filename, mutual exclusion fails.  Callers 1 and 2 both find caller
0's promise registered and both `await` it; `withFileLock` never
re-checks the map after resuming, so when 0 settles (its `finally` having
deleted the map entry), 1 resumes and starts its operation, and then 2
resumes and starts its operation too — 2 never waits for 1.  The trace
`raceTrace` is a genuine event-loop schedule (`lockRun` rejects disabled
actions), and it ends in a state where tasks 1 and 2 are both in flight
(started, unsettled) on the same key, contradicting "each waits for the
previously registered operation to settle before starting" and "at most
one in-flight operation per filename" — which the source's own comments
("Race condition protection", "Wait for any existing lock on this file")
claim to guarantee. -/
theorem C1_withFileLock_admits_two_in_flight_operations :
    lockRun (initLock 3) raceTrace
      = some ⟨[.done, .started, .started], some 2, [0], some 0⟩
    ∧ inFlight ⟨[.done, .started, .started], some 2, [0], some 0⟩ 1 = true
    ∧ inFlight ⟨[.done, .started, .started], some 2, [0], some 0⟩ 2 = true := by
  exact ⟨rfl, rfl, rfl⟩
